import Mathlib

/-!
Shallow embedding of the PersonaPlex voice-chat client (src/client.py).

Audio samples are modelled as rationals (the source uses float32 PCM in
[-1, 1]; no claim here depends on rounding).  The capture queue, the
speaker deque, the frame assembler, the receiver message handler, the
handshake decision and the stdin command monitor are translated directly
from the source.  The Opus codec and UTF-8 decoding are out-of-scope
collaborators and appear as function parameters.
-/

namespace PersonaPlex

/-- Sample rate constant from client.py line 12. -/
def SAMPLE_RATE : ℕ := 24000

/-- Frame size constant from client.py line 13 (20ms frames). -/
def FRAME_SIZE : ℕ := 480

/-- Capture queue capacity from client.py line 17. -/
def MAX_QUEUE_SIZE : ℕ := 10

/-- Maximum length of the speaker deque, client.py line 19. -/
def SPEAKER_MAXLEN : ℕ := 100000

/-- Audio sample (float32 in the source, modelled as a rational). -/
abbrev Sample := ℚ

/-- A websocket message: binary frame (list of byte values) or text frame. -/
inductive WsMsg where
  | bytes (data : List ℕ)
  | text (s : String)
deriving DecidableEq

/-! ## Capture queue (client.py lines 16-18, 30-47) -/

/-- State touched by the microphone callback: the bounded queue of mono
chunks and the mic-overflow counter of the stats dictionary. -/
structure CaptureState where
  mic_queue : List (List Sample)
  mic_overflows : ℕ
deriving DecidableEq

/-- Mono conversion at client.py line 37: take channel 0 when the input
has more than one channel, otherwise flatten the (frames, 1) array. -/
def toMono (indata : List (List Sample)) : List Sample :=
  if 1 < (indata.headD []).length then indata.map (fun row => row.headD 0)
  else indata.flatten

/-- Queue insertion at client.py lines 39-47: put_nowait, and when the
queue is full (length = maxsize) drop the oldest entry and insert. -/
def micPush (q : List (List Sample)) (x : List Sample) : List (List Sample) :=
  if q.length < MAX_QUEUE_SIZE then q ++ [x] else q.tail ++ [x]

/-- Microphone callback, client.py lines 30-47: increment the overflow
counter only when the device reports input_overflow status, then push
the mono chunk with drop-oldest overflow behaviour. -/
def audio_callback_in (st : CaptureState) (input_overflow : Bool)
    (indata : List (List Sample)) : CaptureState :=
  let st1 := if input_overflow then
      { st with mic_overflows := st.mic_overflows + 1 } else st
  { st1 with mic_queue := micPush st1.mic_queue (toMono indata) }

/-! ## Playback callback (client.py lines 50-69) -/

/-- Result of one speaker callback: the emitted samples, the remaining
buffer, and the updated underrun counter and queue_size stat. -/
structure PlaybackResult where
  outdata : List Sample
  buffer : List Sample
  speaker_underruns : ℕ
  queue_size : ℕ
deriving DecidableEq

/-- Speaker callback, client.py lines 50-69: pop `frames` samples from
the front of the buffer; on shortfall emit what exists plus zeros, and
count an underrun when fewer than frames // 2 samples were available. -/
def audio_callback_out (buffer : List Sample) (frames : ℕ) (underruns : ℕ)
    (output_underflow : Bool) : PlaybackResult :=
  let u1 := if output_underflow then underruns + 1 else underruns
  if frames ≤ buffer.length then
    { outdata := buffer.take frames, buffer := buffer.drop frames,
      speaker_underruns := u1, queue_size := (buffer.drop frames).length }
  else
    let available := buffer.length
    let u2 := if available < frames / 2 then u1 + 1 else u1
    { outdata := buffer ++ List.replicate (frames - available) 0, buffer := [],
      speaker_underruns := u2, queue_size := 0 }

/-! ## Speaker deque (client.py lines 19, 249-254) -/

/-- Extend of a deque with maxlen 100000: append on the right, silently
discarding elements from the left beyond the maximum length. -/
def dequeExtend (buf xs : List Sample) : List Sample :=
  (buf ++ xs).drop (buf.length + xs.length - SPEAKER_MAXLEN)

/-- Receiver append path, client.py lines 251-254: clear the buffer when
its depth exceeds SAMPLE_RATE * 2 samples, then extend with the pcm. -/
def speakerExtend (buf pcm : List Sample) : List Sample :=
  if SAMPLE_RATE * 2 < buf.length then dequeExtend [] pcm
  else dequeExtend buf pcm

/-! ## Frame assembler (client.py lines 185-210, send_audio) -/

/-- Frame emission loop of send_audio (client.py lines 199-201): while at
least FRAME_SIZE samples are accumulated, slice off a frame. Returns the
emitted frames in order together with the residual. -/
def emitFrames (acc : List Sample) : List (List Sample) × List Sample :=
  if h : FRAME_SIZE ≤ acc.length then
    let p := emitFrames (acc.drop FRAME_SIZE)
    (acc.take FRAME_SIZE :: p.1, p.2)
  else ([], acc)
termination_by acc.length
decreasing_by
  simp only [List.length_drop]
  have : 0 < FRAME_SIZE := by norm_num [FRAME_SIZE]
  omega

/-- One poll of send_audio: concatenate the drained chunk onto the
accumulator (client.py line 196), then emit all full frames. The first
component collects every frame emitted so far. -/
def send_step (st : List (List Sample) × List Sample) (chunk : List Sample) :
    List (List Sample) × List Sample :=
  let p := emitFrames (st.2 ++ chunk)
  (st.1 ++ p.1, p.2)

/-- Feeding a whole sequence of drained chunks through send_audio's
accumulator, starting from the empty accumulator (client.py line 188). -/
def send_audio (chunks : List (List Sample)) : List (List Sample) × List Sample :=
  chunks.foldl send_step ([], [])

/-! ## Handshake wait (client.py lines 171-180) -/

/-- Decision taken on the first message after sending the config.  The
source breaks out of the session loop only when the message is non-empty
bytes whose first byte differs from 0x00; a text frame or empty bytes
frame falls through both guards and the session activities run. Returns
true when the client proceeds to run the session activities. -/
def handshake_proceeds (msg : WsMsg) : Bool :=
  match msg with
  | .bytes data =>
      if 0 < data.length then
        if data.headD 0 = 0 then true else false
      else true
  | .text _ => true

/-- Handshake message as the spec words it: a non-empty bytes message
whose first byte is 0x00.  Stated from the spec for comparison with
handshake_proceeds, which is translated from the source. -/
def isHandshakeMsg (msg : WsMsg) : Bool :=
  match msg with
  | .bytes data => decide (0 < data.length) && decide (data.headD 0 = 0)
  | .text _ => false

/-! ## Receiver (client.py lines 216-271, receive_responses)

The Opus stream reader is an out-of-scope collaborator; its state type
and its two operations (append_bytes, read_pcm) are parameters, as is
UTF-8 decoding (which can fail).  The Python global current_speaker is
never bound before its first use, so reading it raises NameError; the
state records in speaker_defined whether the global has been assigned,
and the step returns an error exactly where the source would raise an
exception that the except-clause of receive_responses catches (which
terminates the receiver activity). -/

/-- Mean absolute amplitude, client.py line 240. -/
def meanAbs (pcm : List Sample) : ℚ := (pcm.map (fun x => |x|)).sum / pcm.length

/-- Receiver-side mutable state: the speaker deque, the current_speaker
global (with a flag telling whether it has ever been assigned), the
pending line buffer and the Opus reader state. -/
structure RState (D : Type) where
  speaker_buffer : List Sample
  speaker_defined : Bool
  current_speaker : Option String
  current_line_buffer : List String
  opus_reader : D
deriving DecidableEq

/-- Processing of one websocket message by receive_responses (client.py
lines 222-267), assuming restart_requested is not set.  An error value
models an uncaught exception inside the async-for body (NameError on the
unassigned current_speaker global, or a UTF-8 decode failure), which the
enclosing except-clause catches, stopping the receiver. -/
def receive_step {D : Type} (append_bytes : D → List ℕ → D)
    (read_pcm : D → D × List Sample) (utf8_decode : List ℕ → Option String)
    (st : RState D) (message : WsMsg) : Except Unit (RState D) :=
  match message with
  | .text _ => .ok st
  | .bytes data =>
    if data.length = 0 then .ok st
    else
      let msg_type := data.headD 0
      let payload := data.tail
      if msg_type = 0 then .ok st
      else if msg_type = 1 then
        let rp := read_pcm (append_bytes st.opus_reader payload)
        let st1 : RState D := { st with opus_reader := rp.1 }
        let pcm := rp.2
        if 0 < pcm.length then
          if 1 / 100 < meanAbs pcm then
            (if st1.speaker_defined = false then .error ()
             else
               let st2 := if st1.current_speaker ≠ some "AI" then
                   { st1 with current_line_buffer := [],
                              current_speaker := some "AI" }
                 else st1
               .ok { st2 with speaker_buffer := speakerExtend st2.speaker_buffer pcm })
          else
            .ok { st1 with speaker_buffer := speakerExtend st1.speaker_buffer pcm }
        else .ok st1
      else if msg_type = 2 then
        match utf8_decode payload with
        | Option.none => .error ()
        | Option.some text =>
          if text.trim = "" then .ok st
          else
            if st.speaker_defined = false then .error ()
            else
              let st1 := if st.current_speaker = Option.none then
                  { st with current_speaker := some "AI" }
                else st
              .ok { st1 with current_line_buffer := st1.current_line_buffer ++ [text] }
      else .ok st

/-- Processing of a whole message sequence: the async-for loop of
receive_responses, stopping at the first uncaught exception. -/
def receive_many {D : Type} (append_bytes : D → List ℕ → D)
    (read_pcm : D → D × List Sample) (utf8_decode : List ℕ → Option String)
    (st : RState D) : List WsMsg → Except Unit (RState D)
  | [] => .ok st
  | m :: rest =>
    match receive_step append_bytes read_pcm utf8_decode st m with
    | .error e => .error e
    | .ok st1 => receive_many append_bytes read_pcm utf8_decode st1 rest

/-- Malformed message as the spec words it: zero-length, not a bytes
frame, or leading tag byte outside 0x00-0x03. -/
def malformedMsg (m : WsMsg) : Bool :=
  match m with
  | .text _ => true
  | .bytes data => decide (data.length = 0) || decide (3 < data.headD 0)

/-! ## Command monitor (client.py lines 282-306, monitor_input) -/

/-- Mutable state touched by one iteration of monitor_input: the
restart_requested global and the list of messages sent on the socket. -/
structure MonitorState where
  restart_requested : Bool
  sent : List (List ℕ)
deriving DecidableEq

/-- What one iteration of the monitor loop does after reading a line:
return a value from monitor_input (True = continue with restart,
False = quit), print an unknown-command notice, or silently loop. -/
inductive MonitorAction where
  | ret (b : Bool)
  | notice (command : List Char)
  | idle
deriving DecidableEq

/-- Python str.strip with no argument: remove leading and trailing
whitespace characters (collaborator primitive, modelled on List Char). -/
def pyStrip (l : List Char) : List Char :=
  ((l.dropWhile Char.isWhitespace).reverse.dropWhile Char.isWhitespace).reverse

/-- Python str.lower on the ASCII range (collaborator primitive). -/
def pyLower (l : List Char) : List Char := l.map Char.toLower

/-- One line of monitor_input, client.py lines 285-299: strip and
lowercase the line, then dispatch on restart / quit / other non-empty. -/
def monitor_line (st : MonitorState) (line : String) : MonitorState × MonitorAction :=
  let command := pyLower (pyStrip line.toList)
  if command = "restart".toList then
    ({ restart_requested := true, sent := st.sent ++ [[3, 3]] }, .ret true)
  else if command = "quit".toList then
    ({ st with restart_requested := true }, .ret false)
  else if command ≠ [] then (st, .notice command)
  else (st, .idle)

/-! ## Concrete collaborator instantiations (used only to evaluate the
parameterised receiver on closed inputs) -/

/-- Stand-in Opus reader state: a queue of already-decoded samples. -/
abbrev FakeDec := List Sample

/-- Stand-in append_bytes: decode each byte b to the sample b / 255. -/
def fakeAppendBytes (d : FakeDec) (payload : List ℕ) : FakeDec :=
  d ++ payload.map (fun b => (b : ℚ) / 255)

/-- Stand-in read_pcm: emit everything buffered. -/
def fakeReadPcm (d : FakeDec) : FakeDec × List Sample := ([], d)

/-- Stand-in UTF-8 decoding, total on the byte values used here. -/
def fakeUtf8 (payload : List ℕ) : Option String :=
  some (String.mk (payload.map Char.ofNat))

/-- Receiver state at the start of the first session: empty buffers, and
the current_speaker global has never been assigned. -/
def rstate_init : RState FakeDec :=
  { speaker_buffer := [], speaker_defined := false,
    current_speaker := Option.none, current_line_buffer := [],
    opus_reader := [] }

/-! # Helper lemmas -/

/-- Frame emission invariant: the emitted frames concatenated with the
residual restore the accumulator, the residual is shorter than a frame,
and every emitted frame has exactly FRAME_SIZE samples. -/
theorem emitFrames_spec (acc : List Sample) :
    (emitFrames acc).1.flatten ++ (emitFrames acc).2 = acc ∧
    (emitFrames acc).2.length < FRAME_SIZE ∧
    ∀ f ∈ (emitFrames acc).1, f.length = FRAME_SIZE := by
  induction acc using emitFrames.induct with
  | case1 acc h ih =>
    rw [emitFrames, dif_pos h]
    refine ⟨?_, ih.2.1, ?_⟩
    · simp only [List.flatten_cons, List.append_assoc, ih.1, List.take_append_drop]
    · intro f hf
      rcases List.mem_cons.1 hf with rfl | hf
      · simp [List.length_take]; omega
      · exact ih.2.2 f hf
  | case2 acc h =>
    rw [emitFrames, dif_neg h]
    refine ⟨by simp, by show acc.length < FRAME_SIZE; omega, by simp⟩

/-- Folding send_step preserves the concatenation of frames and residual. -/
theorem send_foldl_flatten (chunks : List (List Sample))
    (st : List (List Sample) × List Sample) :
    (chunks.foldl send_step st).1.flatten ++ (chunks.foldl send_step st).2
      = st.1.flatten ++ (st.2 ++ chunks.flatten) := by
  induction chunks generalizing st with
  | nil => simp
  | cons c cs ih =>
    rw [List.foldl_cons, ih]
    show (st.1 ++ (emitFrames (st.2 ++ c)).1).flatten
        ++ ((emitFrames (st.2 ++ c)).2 ++ cs.flatten) = _
    rw [List.flatten_append, List.append_assoc,
      ← List.append_assoc (emitFrames (st.2 ++ c)).1.flatten,
      (emitFrames_spec (st.2 ++ c)).1]
    simp

/-- Folding send_step keeps the residual below FRAME_SIZE. -/
theorem send_foldl_residual (chunks : List (List Sample))
    (st : List (List Sample) × List Sample) (h : st.2.length < FRAME_SIZE) :
    (chunks.foldl send_step st).2.length < FRAME_SIZE := by
  induction chunks generalizing st with
  | nil => exact h
  | cons c cs ih =>
    rw [List.foldl_cons]
    exact ih _ (emitFrames_spec (st.2 ++ c)).2.1

/-- Folding send_step only ever adds frames of exactly FRAME_SIZE. -/
theorem send_foldl_frames (chunks : List (List Sample))
    (st : List (List Sample) × List Sample)
    (h : ∀ f ∈ st.1, f.length = FRAME_SIZE) :
    ∀ f ∈ (chunks.foldl send_step st).1, f.length = FRAME_SIZE := by
  induction chunks generalizing st with
  | nil => exact h
  | cons c cs ih =>
    rw [List.foldl_cons]
    refine ih _ ?_
    intro f hf
    rcases List.mem_append.1 hf with hf | hf
    · exact h f hf
    · exact (emitFrames_spec (st.2 ++ c)).2.2 f hf

/-- The queue insertion rewritten as a drop at the front of the extended
queue, valid whenever the queue respects its capacity. -/
theorem micPush_drop (q : List (List Sample)) (x : List Sample)
    (h : q.length ≤ MAX_QUEUE_SIZE) :
    micPush q x = (q ++ [x]).drop (q.length + 1 - MAX_QUEUE_SIZE) := by
  unfold micPush
  split
  · rw [Nat.sub_eq_zero_of_le (by omega), List.drop_zero]
  · have hq : q.length = MAX_QUEUE_SIZE := by omega
    have h1 : q.length + 1 - MAX_QUEUE_SIZE = 1 := by omega
    rw [h1]
    cases q with
    | nil => simp [MAX_QUEUE_SIZE] at hq
    | cons a t => simp

/-- Queue length after an insertion. -/
theorem micPush_length (q : List (List Sample)) (x : List Sample)
    (h : q.length ≤ MAX_QUEUE_SIZE) :
    (micPush q x).length = min (q.length + 1) MAX_QUEUE_SIZE := by
  rw [micPush_drop q x h]
  simp only [List.length_drop, List.length_append, List.length_singleton]
  omega

/-- Folding insertions keeps the newest elements: the queue after any
burst of pushes is the suffix of all pushed elements that fits. -/
theorem micPush_foldl (cs : List (List Sample)) (q : List (List Sample))
    (h : q.length ≤ MAX_QUEUE_SIZE) :
    cs.foldl micPush q = (q ++ cs).drop (q.length + cs.length - MAX_QUEUE_SIZE) := by
  induction cs generalizing q with
  | nil =>
    simp only [List.foldl_nil, List.append_nil, List.length_nil]
    rw [Nat.sub_eq_zero_of_le (by omega), List.drop_zero]
  | cons c cs ih =>
    have hlen := micPush_length q c h
    rw [List.foldl_cons, ih (micPush q c) (by omega), micPush_drop q c h,
      ← List.drop_append_of_le_length
        (show q.length + 1 - MAX_QUEUE_SIZE ≤ (q ++ [c]).length from by simp),
      List.drop_drop]
    rw [List.append_assoc, List.singleton_append]
    congr 1
    simp only [List.length_drop, List.length_append, List.length_singleton,
      List.length_cons, List.length_nil]
    omega

/-- A fold of microphone callbacks with no device status flag acts as a
fold of queue insertions of the mono chunks and never touches the
overflow counter. -/
theorem audio_fold_spec (indatas : List (List (List Sample))) (st : CaptureState) :
    (indatas.foldl (fun s ind => audio_callback_in s false ind) st).mic_queue
      = (indatas.map toMono).foldl micPush st.mic_queue ∧
    (indatas.foldl (fun s ind => audio_callback_in s false ind) st).mic_overflows
      = st.mic_overflows := by
  induction indatas generalizing st with
  | nil => exact ⟨rfl, rfl⟩
  | cons ind inds ih =>
    rw [List.foldl_cons, List.map_cons, List.foldl_cons]
    exact ih { st with mic_queue := micPush st.mic_queue (toMono ind) }

/-- Length of a deque extend: the combined length capped at the maximum. -/
theorem dequeExtend_length (buf pcm : List Sample) :
    (dequeExtend buf pcm).length = min (buf.length + pcm.length) SPEAKER_MAXLEN := by
  simp only [dequeExtend, List.length_drop, List.length_append]
  omega

/-! # Claim theorems -/

/-- Claim C1, counterexample: an empty bytes message as the first
message is not a handshake message, yet the client does not abort the
session: handshake_proceeds is true, so the session activities run,
contradicting the claim that any non-handshake first message aborts. -/
theorem handshake_empty_bytes_proceeds :
    handshake_proceeds (WsMsg.bytes []) = true ∧
    isHandshakeMsg (WsMsg.bytes []) = false :=
  ⟨rfl, rfl⟩

/-- Claim C1, amended: after the configuration message the client blocks
for exactly one message, and the session is aborted as a fatal startup
error exactly when that first message is a non-empty bytes message whose
first byte is not 0x00; a handshake message always proceeds, but so do
an empty bytes message and a text message, which are ignored. -/
theorem handshake_abort_characterization (msg : WsMsg) :
    (handshake_proceeds msg = false ↔
      ∃ data, msg = WsMsg.bytes data ∧ 0 < data.length ∧ data.headD 0 ≠ 0) ∧
    (isHandshakeMsg msg = true → handshake_proceeds msg = true) := by
  constructor
  · cases msg with
    | text s => simp [handshake_proceeds]
    | bytes data =>
      by_cases h0 : 0 < data.length
      · by_cases hh : data.headD 0 = 0
        · simp [handshake_proceeds, h0, hh]
        · simp [handshake_proceeds, h0, hh]
      · simp [handshake_proceeds, h0]
  · intro h
    cases msg with
    | text s => simp [isHandshakeMsg] at h
    | bytes data =>
      simp only [isHandshakeMsg, Bool.and_eq_true, decide_eq_true_eq] at h
      obtain ⟨ha, hb⟩ := h
      simp only [handshake_proceeds]
      rw [if_pos ha, if_pos hb]

/-- Claim C1, witness: a well-formed handshake first message (bytes
starting with 0x00) lets the client proceed. -/
theorem handshake_abort_characterization_witness :
    handshake_proceeds (WsMsg.bytes [0, 7]) = true :=
  (handshake_abort_characterization (WsMsg.bytes [0, 7])).2 (by decide)

/-- Claim C2, amended: pushing 25 chunks of 100 samples each into the
initially empty capture queue leaves exactly the last 10 mono chunks in
FIFO order, and the mic_overflows counter stays 0: queue eviction never
increments it (only a device-reported input overflow status does). -/
theorem capture_25_chunks_last_ten (indatas : List (List (List Sample)))
    (h25 : indatas.length = 25)
    (h100 : ∀ c ∈ indatas, (toMono c).length = 100) :
    ((indatas.foldl (fun s ind => audio_callback_in s false ind) ⟨[], 0⟩).mic_queue
        = (indatas.map toMono).drop 15) ∧
    (indatas.foldl (fun s ind => audio_callback_in s false ind) ⟨[], 0⟩).mic_overflows
        = 0 := by
  obtain ⟨hq, ho⟩ := audio_fold_spec indatas ⟨[], 0⟩
  refine ⟨?_, ho⟩
  rw [hq]
  show (indatas.map toMono).foldl micPush [] = _
  rw [micPush_foldl _ [] (by simp [MAX_QUEUE_SIZE])]
  simp only [List.nil_append, List.length_nil, List.length_map, h25]
  norm_num [MAX_QUEUE_SIZE]

/-- Claim C2, counterexample: after 25 pushes of 100-sample chunks into
the empty queue the overflow counter is not 15 (it is 0): the eviction
path of audio_callback_in never touches the counter. -/
theorem capture_25_chunks_counter_not_15 :
    ¬ (((List.replicate 25 (List.replicate 100 [(0:ℚ)])).foldl
          (fun s ind => audio_callback_in s false ind) ⟨[], 0⟩).mic_overflows
        = 15) := by
  intro hc
  rw [(audio_fold_spec (List.replicate 25 (List.replicate 100 [(0:ℚ)])) ⟨[], 0⟩).2] at hc
  simp at hc

/-- Claim C2, witness: the amended theorem applied to 25 concrete
one-channel chunks of 100 samples. -/
theorem capture_25_chunks_last_ten_witness :
    ((List.replicate 25 (List.replicate 100 [(0:ℚ)])).foldl
        (fun s ind => audio_callback_in s false ind) ⟨[], 0⟩).mic_overflows = 0 :=
  (capture_25_chunks_last_ten (List.replicate 25 (List.replicate 100 [(0:ℚ)]))
      (by simp) (by intro c hc; rw [List.eq_of_mem_replicate hc]; decide)).2

/-- Claim C3: evaluating the receiver on the first AudioChunk of a
session whose decoded PCM is the single sample 1 (mean absolute
amplitude 1 > 0.01) with the current_speaker global still unassigned
raises NameError, which the except-clause of receive_responses catches,
stopping the receiver; the samples never reach the speaker buffer.  The
claim says this chunk is appended and turn detection succeeds without
the receiver failing, so the code contradicts the documented intent. -/
theorem first_loud_audiochunk_crashes_receiver :
    receive_step fakeAppendBytes fakeReadPcm fakeUtf8 rstate_init
      (WsMsg.bytes [1, 255]) = .error () := by
  norm_num [receive_step, fakeAppendBytes, fakeReadPcm, rstate_init, meanAbs]

/-- Claim C4: for any partitioning of a sample stream into chunks fed to
send_audio's accumulator, the concatenation of all emitted frames
followed by the final residual is exactly the original stream, the
residual is always shorter than FRAME_SIZE, and every emitted frame has
length exactly FRAME_SIZE. -/
theorem frame_assembler_round_trip (chunks : List (List Sample)) :
    (send_audio chunks).1.flatten ++ (send_audio chunks).2 = chunks.flatten ∧
    (send_audio chunks).2.length < FRAME_SIZE ∧
    (send_audio chunks).1.all (fun f => f.length == FRAME_SIZE) = true := by
  refine ⟨?_, ?_, ?_⟩
  · have h := send_foldl_flatten chunks ([], [])
    simpa using h
  · exact send_foldl_residual chunks ([], []) (by norm_num [FRAME_SIZE])
  · rw [List.all_eq_true]
    intro f hf
    exact beq_iff_eq.2 (send_foldl_frames chunks ([], []) (by simp) f hf)

/-- Claim C5: the capture queue never exceeds its capacity of 10 after
any sequence of pushes from empty; a push to a full queue removes the
oldest entry and appends the new one at the tail, so the newest push is
never the one dropped. -/
theorem capture_queue_bounded_drop_oldest :
    (∀ (cs : List (List Sample)), (cs.foldl micPush []).length ≤ MAX_QUEUE_SIZE) ∧
    (∀ (q : List (List Sample)) (x : List Sample), q.length = MAX_QUEUE_SIZE →
      micPush q x = q.tail ++ [x] ∧ (micPush q x).length = MAX_QUEUE_SIZE ∧
      (micPush q x).getLast? = some x) ∧
    (∀ (q : List (List Sample)) (x : List Sample), q.length ≤ MAX_QUEUE_SIZE →
      (micPush q x).length ≤ MAX_QUEUE_SIZE) := by
  refine ⟨?_, ?_, ?_⟩
  · intro cs
    rw [micPush_foldl cs [] (by simp [MAX_QUEUE_SIZE])]
    simp only [List.nil_append, List.length_drop, List.length_nil]
    omega
  · intro q x hq
    refine ⟨?_, ?_, ?_⟩
    · unfold micPush
      rw [if_neg (by omega)]
    · rw [micPush_length q x (by omega)]
      omega
    · unfold micPush
      split <;> exact List.getLast?_concat _
  · intro q x h
    rw [micPush_length q x h]
    omega

/-- Claim C5, witness: a push to a concrete full queue of 10 chunks
evicts the oldest and keeps the newest at the tail. -/
theorem capture_queue_bounded_drop_oldest_witness :
    micPush [[(0:ℚ)], [1], [2], [3], [4], [5], [6], [7], [8], [9]] [10]
      = [[(1:ℚ)], [2], [3], [4], [5], [6], [7], [8], [9], [10]] := by
  have h := (capture_queue_bounded_drop_oldest.2.1
      [[(0:ℚ)], [1], [2], [3], [4], [5], [6], [7], [8], [9]] [10] (by decide)).1
  simpa using h

/-- Claim C6, counterexample: a buffer of depth exactly 48000 does not
exceed the two-second ceiling, so by the claim an extend should append
with nothing removed; but extending with 60000 samples overflows the
deque's maxlen of 100000 and the oldest 8000 samples are discarded, so
the result is not the full concatenation. -/
theorem playback_extend_maxlen_counterexample :
    speakerExtend (List.replicate 48000 (0:ℚ)) (List.replicate 60000 0)
      ≠ List.replicate 48000 (0:ℚ) ++ List.replicate 60000 0 := by
  intro hc
  have hl := congrArg List.length hc
  rw [speakerExtend, if_neg (by norm_num [SAMPLE_RATE, List.length_replicate]),
    dequeExtend] at hl
  simp only [List.length_drop, List.length_append, List.length_replicate] at hl
  norm_num [SPEAKER_MAXLEN] at hl

/-- Claim C6, amended: on an extend with a non-empty batch, a buffer
depth strictly above SAMPLE_RATE * 2 is cleared first, so the result is
exactly the new samples (truncated to their newest 100000 if longer);
otherwise the batch is appended after the existing content, with only
the oldest samples beyond the deque's 100000-sample maximum length
removed (so nothing is removed when the combined length fits). -/
theorem playback_extend_clear_policy (buf pcm : List Sample) (hne : pcm ≠ []) :
    (SAMPLE_RATE * 2 < buf.length →
      speakerExtend buf pcm = pcm.drop (pcm.length - SPEAKER_MAXLEN)) ∧
    (SAMPLE_RATE * 2 < buf.length → pcm.length ≤ SPEAKER_MAXLEN →
      speakerExtend buf pcm = pcm) ∧
    (buf.length ≤ SAMPLE_RATE * 2 →
      speakerExtend buf pcm
        = (buf ++ pcm).drop (buf.length + pcm.length - SPEAKER_MAXLEN)) ∧
    (buf.length ≤ SAMPLE_RATE * 2 → buf.length + pcm.length ≤ SPEAKER_MAXLEN →
      speakerExtend buf pcm = buf ++ pcm) := by
  refine ⟨?_, ?_, ?_, ?_⟩
  · intro h
    rw [speakerExtend, if_pos h, dequeExtend]
    simp
  · intro h hle
    rw [speakerExtend, if_pos h, dequeExtend]
    simp only [List.nil_append, List.length_nil, Nat.zero_add]
    rw [Nat.sub_eq_zero_of_le hle, List.drop_zero]
  · intro h
    rw [speakerExtend, if_neg (by omega), dequeExtend]
  · intro h hle
    rw [speakerExtend, if_neg (by omega), dequeExtend,
      Nat.sub_eq_zero_of_le hle, List.drop_zero]

/-- Claim C6, witness: a short buffer below the ceiling is extended in
place with nothing removed. -/
theorem playback_extend_clear_policy_witness :
    speakerExtend [(1:ℚ), 2] [3] = [1, 2, 3] := by
  have h := (playback_extend_clear_policy [(1:ℚ), 2] [3] (by decide)).2.2.2
      (by decide) (by decide)
  simpa using h

/-- Claim C7, counterexample: requesting 5 samples from a buffer holding
2 gives a shortfall of 3, which exceeds half of 5, yet the underrun
counter is not incremented, because the source tests
available < frames // 2 (2 < 2 is false); so "incremented exactly when
the shortfall exceeds half of n" fails for odd n. -/
theorem playback_underrun_half_counterexample :
    ¬ (((audio_callback_out [(1:ℚ), 1] 5 0 false).speaker_underruns = 1) ↔
      5 < 2 * (5 - ([(1:ℚ), 1]).length)) := by decide

/-- Claim C7, amended: a playback callback requesting n samples from a
buffer holding k emits the first n buffered samples in order when
k ≥ n; when k < n it emits all k followed by n - k zeros, and the
underrun counter is incremented exactly when k < n / 2 in integer
division (for even n this is exactly when the shortfall exceeds half
of n). -/
theorem playback_pop_spec (buf : List Sample) (frames u : ℕ) :
    (frames ≤ buf.length →
      (audio_callback_out buf frames u false).outdata = buf.take frames ∧
      (audio_callback_out buf frames u false).buffer = buf.drop frames ∧
      (audio_callback_out buf frames u false).speaker_underruns = u) ∧
    (buf.length < frames →
      (audio_callback_out buf frames u false).outdata
          = buf ++ List.replicate (frames - buf.length) 0 ∧
      (audio_callback_out buf frames u false).buffer = [] ∧
      ((audio_callback_out buf frames u false).speaker_underruns
          = if buf.length < frames / 2 then u + 1 else u)) := by
  constructor
  · intro h
    simp [audio_callback_out, h]
  · intro h
    simp [audio_callback_out, Nat.not_le.2 h]

/-- Claim C7, witness: popping 2 from a buffer of 3 emits the first two
samples in order. -/
theorem playback_pop_spec_witness :
    (audio_callback_out [(1:ℚ), 2, 3] 2 0 false).outdata = [1, 2] := by
  have h := ((playback_pop_spec [(1:ℚ), 2, 3] 2 0).1 (by decide)).1
  simpa using h

/-- Claim C8: every received message that is zero-length, not a bytes
message, or has a leading tag byte outside 0x00-0x03 is discarded with
the receiver state unchanged, and processing any following message
sequence is unaffected, for every decoder and UTF-8 collaborator. -/
theorem malformed_messages_dropped {D : Type} (append_bytes : D → List ℕ → D)
    (read_pcm : D → D × List Sample) (utf8_decode : List ℕ → Option String)
    (st : RState D) (m : WsMsg) (rest : List WsMsg)
    (h : malformedMsg m = true) :
    receive_step append_bytes read_pcm utf8_decode st m = .ok st ∧
    receive_many append_bytes read_pcm utf8_decode st (m :: rest)
      = receive_many append_bytes read_pcm utf8_decode st rest := by
  have h1 : receive_step append_bytes read_pcm utf8_decode st m = .ok st := by
    cases m with
    | text s => rfl
    | bytes data =>
      by_cases h0 : data.length = 0
      · simp [receive_step, h0]
      · have h3 : 3 < data.headD 0 := by
          simp only [malformedMsg, Bool.or_eq_true, decide_eq_true_eq] at h
          rcases h with h' | h'
          · exact absurd h' h0
          · exact h'
        simp only [receive_step]
        rw [if_neg h0, if_neg (by omega), if_neg (by omega), if_neg (by omega)]
  refine ⟨h1, ?_⟩
  simp only [receive_many, h1]

/-- Claim C8, witness: a concrete unknown-tag message (tag 0x09) is
dropped with the state unchanged. -/
theorem malformed_messages_dropped_witness :
    receive_step (fun (d : Unit) _ => d) (fun d => (d, ([] : List Sample)))
        (fun _ => Option.none) ⟨[], false, Option.none, [], ()⟩ (WsMsg.bytes [9])
      = .ok ⟨[], false, Option.none, [], ()⟩ :=
  (malformed_messages_dropped (fun d _ => d) (fun d => (d, []))
      (fun _ => Option.none) ⟨[], false, Option.none, [], ()⟩ (WsMsg.bytes [9]) []
      (by decide)).1

/-- Claim C9: the command monitor strips surrounding whitespace and
lowercases the line before matching; a Restart line with trailing
newline is accepted as the restart command (setting restart_requested,
sending the control bytes 0x03 0x03 and returning the continue signal),
a quit line with surrounding spaces is accepted as quit (setting
restart_requested and returning the stop signal), and the input foo
yields an unknown-command notice with the state unchanged. -/
theorem command_parsing_cases (st : MonitorState) :
    monitor_line st "Restart\n"
        = ({ restart_requested := true, sent := st.sent ++ [[3, 3]] }, .ret true) ∧
    monitor_line st "  quit  " = ({ st with restart_requested := true }, .ret false) ∧
    monitor_line st "foo" = (st, .notice "foo".toList) := by
  refine ⟨?_, ?_, ?_⟩
  · simp only [monitor_line]
    rw [if_pos (show pyLower (pyStrip "Restart\n".toList) = "restart".toList by decide)]
  · simp only [monitor_line]
    rw [if_neg (show ¬ pyLower (pyStrip "  quit  ".toList) = "restart".toList by decide),
      if_pos (show pyLower (pyStrip "  quit  ".toList) = "quit".toList by decide)]
  · simp only [monitor_line]
    rw [if_neg (show ¬ pyLower (pyStrip "foo".toList) = "restart".toList by decide),
      if_neg (show ¬ pyLower (pyStrip "foo".toList) = "quit".toList by decide),
      if_pos (show pyLower (pyStrip "foo".toList) ≠ [] by decide),
      show pyLower (pyStrip "foo".toList) = "foo".toList by decide]

/-- Claim C10: the speaker deque is bounded by its fixed maximum length
of 100000 samples: every extend result has depth at most 100000, an
extend whose combined length would exceed the bound keeps exactly the
newest 100000 samples (discarding the oldest), and the playback callback
never grows the buffer past the bound. -/
theorem speaker_buffer_hard_cap (buf pcm : List Sample) (frames u : ℕ) (b : Bool) :
    (dequeExtend buf pcm).length ≤ SPEAKER_MAXLEN ∧
    (speakerExtend buf pcm).length ≤ SPEAKER_MAXLEN ∧
    (SPEAKER_MAXLEN < buf.length + pcm.length →
      (dequeExtend buf pcm).length = SPEAKER_MAXLEN ∧
      dequeExtend buf pcm
        = (buf ++ pcm).drop (buf.length + pcm.length - SPEAKER_MAXLEN)) ∧
    (buf.length ≤ SPEAKER_MAXLEN →
      (audio_callback_out buf frames u b).buffer.length ≤ SPEAKER_MAXLEN) := by
  refine ⟨?_, ?_, ?_, ?_⟩
  · rw [dequeExtend_length]
    omega
  · rw [speakerExtend]
    split
    · rw [dequeExtend_length]
      simp only [List.length_nil]
      omega
    · rw [dequeExtend_length]
      omega
  · intro h
    exact ⟨by rw [dequeExtend_length]; omega, rfl⟩
  · intro h
    simp only [audio_callback_out]
    split
    · simp only [List.length_drop]
      omega
    · simp

/-- Claim C10, witness: extending a 60000-sample buffer with another
60000 samples caps the depth at exactly 100000. -/
theorem speaker_buffer_hard_cap_witness :
    (dequeExtend (List.replicate 60000 (0:ℚ)) (List.replicate 60000 0)).length
      = SPEAKER_MAXLEN :=
  ((speaker_buffer_hard_cap (List.replicate 60000 (0:ℚ)) (List.replicate 60000 0)
      0 0 false).2.2.1 (by
        simp only [List.length_replicate]
        norm_num [SPEAKER_MAXLEN])).1

end PersonaPlex
